import Mathlib

/-!
# Verification of the breaking-bad pipeline orchestrator

Shallow embedding of the news-classification pipeline
(`orchestrator.py`, `agents/base.py`, `agents/classifiers.py`,
`agents/finalizer.py`, `database.py`) and proofs about it.

Status-name correspondence between the spec and the code:
`Processing` = `"processing"`, `Completed` = `"completed"`,
`Quarantined` = `"error"`.
-/

set_option autoImplicit false

/-- JSON-like Python values flowing through the pipeline (the shape of
`json.loads` output, stage results and `final_decision`). -/
inductive PyVal where
  | str : String → PyVal
  | int : Int → PyVal
  | bool : Bool → PyVal
  | none : PyVal
  | list : List PyVal → PyVal
  | dict : List (String × PyVal) → PyVal

/-- Charwise replacement on a character list.  For a single-character
pattern and replacement, Python's `str.replace(pat, repl)` is exactly this
map. -/
def replaceCharList (pat repl : Char) : List Char → List Char
  | [] => []
  | c :: cs => (if c = pat then repl else c) :: replaceCharList pat repl cs

/-- Embedding of `k.replace('.', '_').replace('$', '_')` from
`BaseAgent._sanitize_mongo_keys`. -/
def sanitizeKey (k : String) : String :=
  ⟨replaceCharList '$' '_' (replaceCharList '.' '_' k.data)⟩

/-- Assignment `d[k] = v` on a Python dict in insertion order (equally:
Mongo's `$set` of one field of a subdocument): if the key is present its
value is replaced in place, keeping the key's original position, otherwise
the new entry is appended at the end. -/
def setKey : List (String × PyVal) → String → PyVal → List (String × PyVal)
  | [], k, v => [(k, v)]
  | kv :: rest, k, v => if kv.1 = k then (k, v) :: rest else kv :: setKey rest k v

/-- Building a Python dict by assigning the given pairs in order into the
accumulator: on a key collision the later value wins, at the key's first
position. -/
def dictInsertAll (acc : List (String × PyVal)) :
    List (String × PyVal) → List (String × PyVal)
  | [] => acc
  | (k, v) :: rest => dictInsertAll (setKey acc k v) rest

/-- The Python dict built from a sequence of key-value pairs (what a dict
comprehension yields): last value wins on colliding keys. -/
def pyDictOfPairs (pairs : List (String × PyVal)) : List (String × PyVal) :=
  dictInsertAll [] pairs

mutual

/-- Embedding of `BaseAgent._sanitize_mongo_keys`: recursively replace
`'.'` and `'$'` in dict keys, descend into dicts and lists, leave other
values unchanged.  The dict comprehension rebuilds the mapping from the
rewritten pairs, so keys that collide after rewriting collapse to one
entry whose value is the last. -/
def sanitizeMongoKeys : PyVal → PyVal
  | .dict kvs => .dict (pyDictOfPairs (sanitizePairs kvs))
  | .list xs => .list (sanitizeVals xs)
  | v => v

/-- Pairwise part of `_sanitize_mongo_keys`'s dict comprehension: the
rewritten key and recursively sanitized value of each entry, in iteration
order (collision collapse happens in `pyDictOfPairs`). -/
def sanitizePairs : List (String × PyVal) → List (String × PyVal)
  | [] => []
  | (k, v) :: rest => (sanitizeKey k, sanitizeMongoKeys v) :: sanitizePairs rest

/-- List part of `_sanitize_mongo_keys` (the list comprehension). -/
def sanitizeVals : List PyVal → List PyVal
  | [] => []
  | v :: rest => sanitizeMongoKeys v :: sanitizeVals rest

end

theorem replaceCharList_not_mem (pat repl : Char) (h : pat ≠ repl) :
    ∀ l : List Char, pat ∉ replaceCharList pat repl l := by
  intro l
  induction l with
  | nil => simp [replaceCharList]
  | cons c cs ih =>
    simp only [replaceCharList, List.mem_cons]
    rintro (hc | hc)
    · by_cases hcp : c = pat
      · simp [hcp] at hc; exact h hc
      · simp [hcp] at hc; exact hcp hc.symm
    · exact ih hc

theorem replaceCharList_id_of_not_mem (pat repl : Char) :
    ∀ l : List Char, pat ∉ l → replaceCharList pat repl l = l := by
  intro l
  induction l with
  | nil => intro _; rfl
  | cons c cs ih =>
    intro hmem
    simp only [List.mem_cons, not_or] at hmem
    simp [replaceCharList, Ne.symm hmem.1, ih hmem.2]

theorem replaceCharList_preserves_other (pat repl other : Char)
    (h2 : other ≠ repl) :
    ∀ l : List Char, other ∉ l → other ∉ replaceCharList pat repl l := by
  intro l
  induction l with
  | nil => intro _; simp [replaceCharList]
  | cons c cs ih =>
    intro hmem
    simp only [List.mem_cons, not_or] at hmem
    simp only [replaceCharList, List.mem_cons]
    rintro (hc | hc)
    · by_cases hcp : c = pat
      · simp [hcp] at hc; exact h2 hc
      · simp [hcp] at hc; exact hmem.1 hc
    · exact ih hmem.2 hc

/-- A sanitized key contains no `'.'`. -/
theorem sanitizeKey_no_dot (k : String) : '.' ∉ (sanitizeKey k).data := by
  unfold sanitizeKey
  exact replaceCharList_preserves_other '$' '_' '.' (by decide)
    _ (replaceCharList_not_mem '.' '_' (by decide) k.data)

/-- A sanitized key contains no `'$'`. -/
theorem sanitizeKey_no_dollar (k : String) : '$' ∉ (sanitizeKey k).data := by
  unfold sanitizeKey
  exact replaceCharList_not_mem '$' '_' (by decide) _

/-- A key containing neither `'.'` nor `'$'` is left unchanged. -/
theorem sanitizeKey_id_of_clean (k : String)
    (hdot : '.' ∉ k.data) (hdol : '$' ∉ k.data) : sanitizeKey k = k := by
  unfold sanitizeKey
  rw [replaceCharList_id_of_not_mem '.' '_' k.data hdot,
    replaceCharList_id_of_not_mem '$' '_' k.data hdol]

/-- Sanitizing a key twice is the same as sanitizing it once. -/
theorem sanitizeKey_idem (k : String) :
    sanitizeKey (sanitizeKey k) = sanitizeKey k :=
  sanitizeKey_id_of_clean _ (sanitizeKey_no_dot k) (sanitizeKey_no_dollar k)

/-- The keys of an association list, in order. -/
def keysOf : List (String × PyVal) → List String
  | [] => []
  | kv :: rest => kv.1 :: keysOf rest

theorem keysOf_append : ∀ (a b : List (String × PyVal)),
    keysOf (a ++ b) = keysOf a ++ keysOf b := by
  intro a b
  induction a with
  | nil => rfl
  | cons kv rest ih =>
    simp only [List.cons_append, keysOf]
    exact congrArg (fun t => kv.1 :: t) ih

theorem keysOf_setKey_mem (k x : String) (v : PyVal) :
    ∀ m : List (String × PyVal), x ∈ keysOf (setKey m k v) → x ∈ keysOf m ∨ x = k := by
  intro m
  induction m with
  | nil =>
    intro h
    simp only [setKey, keysOf, List.mem_cons, List.not_mem_nil, or_false] at h
    exact Or.inr h
  | cons kv rest ih =>
    intro h
    by_cases hk : kv.1 = k
    · simp only [setKey, if_pos hk, keysOf, List.mem_cons] at h
      rcases h with rfl | h'
      · exact Or.inr rfl
      · exact Or.inl (by simp [keysOf, h'])
    · simp only [setKey, if_neg hk, keysOf, List.mem_cons] at h
      rcases h with rfl | h'
      · exact Or.inl (by simp [keysOf])
      · rcases ih h' with h'' | h''
        · exact Or.inl (by simp [keysOf, h''])
        · exact Or.inr h''

theorem keysOf_setKey_nodup (k : String) (v : PyVal) :
    ∀ m : List (String × PyVal), (keysOf m).Nodup → (keysOf (setKey m k v)).Nodup := by
  intro m
  induction m with
  | nil => intro _; simp [setKey, keysOf]
  | cons kv rest ih =>
    intro h
    simp only [keysOf, List.nodup_cons] at h
    by_cases hk : kv.1 = k
    · simp only [setKey, if_pos hk, keysOf, List.nodup_cons]
      exact ⟨hk ▸ h.1, h.2⟩
    · simp only [setKey, if_neg hk, keysOf, List.nodup_cons]
      refine ⟨fun hmem => ?_, ih h.2⟩
      rcases keysOf_setKey_mem k kv.1 v rest hmem with h' | h'
      · exact h.1 h'
      · exact hk h'

theorem mem_setKey (k : String) (v : PyVal) (p : String × PyVal) :
    ∀ m : List (String × PyVal), p ∈ setKey m k v → p ∈ m ∨ p = (k, v) := by
  intro m
  induction m with
  | nil =>
    intro h
    simp only [setKey, List.mem_cons, List.not_mem_nil, or_false] at h
    exact Or.inr h
  | cons kv rest ih =>
    intro h
    by_cases hk : kv.1 = k
    · simp only [setKey, if_pos hk, List.mem_cons] at h
      rcases h with rfl | h'
      · exact Or.inr rfl
      · exact Or.inl (List.mem_cons_of_mem _ h')
    · simp only [setKey, if_neg hk, List.mem_cons] at h
      rcases h with rfl | h'
      · exact Or.inl (by simp)
      · rcases ih h' with h'' | h''
        · exact Or.inl (List.mem_cons_of_mem _ h'')
        · exact Or.inr h''

theorem setKey_not_mem (k : String) (v : PyVal) :
    ∀ m : List (String × PyVal), k ∉ keysOf m → setKey m k v = m ++ [(k, v)] := by
  intro m
  induction m with
  | nil => intro _; rfl
  | cons kv rest ih =>
    intro h
    simp only [keysOf, List.mem_cons, not_or] at h
    have hne : kv.1 ≠ k := fun he => h.1 he.symm
    simp only [setKey, if_neg hne, List.cons_append]
    rw [ih h.2]

theorem dictInsertAll_nodup :
    ∀ (l acc : List (String × PyVal)), (keysOf acc).Nodup →
      (keysOf (dictInsertAll acc l)).Nodup := by
  intro l
  induction l with
  | nil => intro acc h; exact h
  | cons kv rest ih =>
    intro acc h
    obtain ⟨k, v⟩ := kv
    simp only [dictInsertAll]
    exact ih _ (keysOf_setKey_nodup k v acc h)

theorem dictInsertAll_mem :
    ∀ (l acc : List (String × PyVal)) (p : String × PyVal),
      p ∈ dictInsertAll acc l → p ∈ acc ∨ p ∈ l := by
  intro l
  induction l with
  | nil => intro acc p h; exact Or.inl h
  | cons kv rest ih =>
    intro acc p h
    obtain ⟨k, v⟩ := kv
    simp only [dictInsertAll] at h
    rcases ih _ p h with h' | h'
    · rcases mem_setKey k v p acc h' with h'' | h''
      · exact Or.inl h''
      · exact Or.inr (by simp [h''])
    · exact Or.inr (List.mem_cons_of_mem _ h')

theorem dictInsertAll_disjoint :
    ∀ (l acc : List (String × PyVal)),
      (∀ x, x ∈ keysOf l → x ∉ keysOf acc) → (keysOf l).Nodup →
      dictInsertAll acc l = acc ++ l := by
  intro l
  induction l with
  | nil => intro acc _ _; simp [dictInsertAll]
  | cons kv rest ih =>
    intro acc hdisj hnd
    obtain ⟨k, v⟩ := kv
    simp only [keysOf, List.nodup_cons] at hnd
    simp only [dictInsertAll]
    rw [setKey_not_mem k v acc (hdisj k (by simp [keysOf]))]
    rw [ih (acc ++ [(k, v)]) ?_ hnd.2]
    · simp
    · intro x hx
      rw [keysOf_append]
      simp only [List.mem_append, keysOf, List.mem_cons, List.not_mem_nil, or_false, not_or]
      exact ⟨hdisj x (by simp [keysOf, hx]), fun he => hnd.1 (he ▸ hx)⟩

theorem pyDictOfPairs_nodup (P : List (String × PyVal)) :
    (keysOf (pyDictOfPairs P)).Nodup :=
  dictInsertAll_nodup P [] (by simp [keysOf])

theorem pyDictOfPairs_mem (P : List (String × PyVal)) (p : String × PyVal)
    (h : p ∈ pyDictOfPairs P) : p ∈ P := by
  rcases dictInsertAll_mem P [] p h with h' | h'
  · simp at h'
  · exact h'

theorem pyDictOfPairs_of_nodup (Q : List (String × PyVal))
    (h : (keysOf Q).Nodup) : pyDictOfPairs Q = Q := by
  unfold pyDictOfPairs
  rw [dictInsertAll_disjoint Q [] (fun x _ => by simp [keysOf]) h]
  simp

theorem sanitizePairs_id_of_fixed :
    ∀ Q : List (String × PyVal),
      (∀ p ∈ Q, sanitizeKey p.1 = p.1 ∧ sanitizeMongoKeys p.2 = p.2) →
      sanitizePairs Q = Q := by
  intro Q
  induction Q with
  | nil => intro _; rfl
  | cons kv rest ih =>
    intro h
    obtain ⟨k, v⟩ := kv
    have hk1 : sanitizeKey k = k := (h (k, v) (by simp)).1
    have hk2 : sanitizeMongoKeys v = v := (h (k, v) (by simp)).2
    simp only [sanitizePairs, hk1, hk2]
    rw [ih (fun p hp => h p (List.mem_cons_of_mem _ hp))]

mutual

theorem sanitizeMongoKeys_idem :
    (v : PyVal) → sanitizeMongoKeys (sanitizeMongoKeys v) = sanitizeMongoKeys v
  | .dict kvs => by
    simp only [sanitizeMongoKeys]
    rw [sanitizePairs_id_of_fixed (pyDictOfPairs (sanitizePairs kvs))
      (fun p hp => sanitizePairs_fixed kvs p (pyDictOfPairs_mem _ p hp))]
    rw [pyDictOfPairs_of_nodup _ (pyDictOfPairs_nodup _)]
  | .list xs => by
    simp only [sanitizeMongoKeys]
    rw [sanitizeVals_idem xs]
  | .str _ => rfl
  | .int _ => rfl
  | .bool _ => rfl
  | .none => rfl

theorem sanitizePairs_fixed :
    (kvs : List (String × PyVal)) → ∀ p ∈ sanitizePairs kvs,
      sanitizeKey p.1 = p.1 ∧ sanitizeMongoKeys p.2 = p.2
  | [] => by
    intro p hp
    simp [sanitizePairs] at hp
  | (k, v) :: rest => by
    intro p hp
    simp only [sanitizePairs, List.mem_cons] at hp
    rcases hp with rfl | hp'
    · exact ⟨sanitizeKey_idem k, sanitizeMongoKeys_idem v⟩
    · exact sanitizePairs_fixed rest p hp'

theorem sanitizeVals_idem :
    (xs : List PyVal) → sanitizeVals (sanitizeVals xs) = sanitizeVals xs
  | [] => rfl
  | v :: rest => by
    simp only [sanitizeVals]
    rw [sanitizeMongoKeys_idem v, sanitizeVals_idem rest]

end

theorem sanitizePairs_eq_map (kvs : List (String × PyVal)) :
    sanitizePairs kvs = kvs.map (fun kv => (sanitizeKey kv.1, sanitizeMongoKeys kv.2)) := by
  induction kvs with
  | nil => rfl
  | cons kv rest ih =>
    obtain ⟨k, v⟩ := kv
    simp [sanitizePairs, ih]

theorem sanitizeVals_eq_map (xs : List PyVal) :
    sanitizeVals xs = xs.map sanitizeMongoKeys := by
  induction xs with
  | nil => rfl
  | cons v rest ih => simp [sanitizeVals, ih]

/-- The spec's trigger condition for rewriting a key (§4.1 / C4's words):
the key contains the separator character, or its first character is the
reserved-prefix character. -/
def specNeedsRewrite (k : String) : Bool :=
  k.data.contains '.' || k.data.head? == some '$'

/-- The news-item document as created and mutated by `Orchestrator.process_file`
(the dict saved under `_id = file_hash`). `status` `"processing"`/`"completed"`/
`"error"` correspond to the spec's `Processing`/`Completed`/`Quarantined`. -/
structure NewsItem where
  id : String
  filename : String
  content : String
  status : String
  agents_results : List (String × PyVal)
  final_decision : Option PyVal
  errorMsg : Option String
  created_at : Nat

/-- The MongoDB collection, keyed by `_id`. -/
abbrev Store := List (String × NewsItem)

/-- `find_one({"_id": id})` (`Database.get_news_item`). -/
def getDoc : Store → String → Option NewsItem
  | [], _ => Option.none
  | kv :: rest, i => if kv.1 = i then some kv.2 else getDoc rest i

/-- Mongo `update_one({"_id": id}, {"$set": ...})`: apply `f` to the first
document matching the id, leave everything else alone. -/
def updateDoc : Store → String → (NewsItem → NewsItem) → Store
  | [], _, _ => []
  | kv :: rest, i, f => if kv.1 = i then (kv.1, f kv.2) :: rest else kv :: updateDoc rest i f

/-- Helper for `replace_one(..., upsert=True)`: replace the first document
whose key matches `doc.id`. -/
def replaceById : Store → NewsItem → Store
  | [], _ => []
  | kv :: rest, doc => if kv.1 = doc.id then (doc.id, doc) :: rest else kv :: replaceById rest doc

/-- `Database.save_news_item`: `replace_one({"_id": ...}, item, upsert=True)` —
replace the matching document if one exists, otherwise insert. -/
def upsertDoc (s : Store) (doc : NewsItem) : Store :=
  match getDoc s doc.id with
  | some _ => replaceById s doc
  | Option.none => s ++ [(doc.id, doc)]

/-- Number of documents stored under a given id. -/
def countId : Store → String → Nat
  | [], _ => 0
  | kv :: rest, i => (if kv.1 = i then 1 else 0) + countId rest i

/-- Lookup in a string-keyed association list (a Mongo subdocument such as
`agents_results` or a parsed JSON object, viewed through `dict.get`). -/
def getKey : List (String × PyVal) → String → Option PyVal
  | [], _ => Option.none
  | kv :: rest, k => if kv.1 = k then some kv.2 else getKey rest k

theorem getKey_setKey_self (m : List (String × PyVal)) (k : String) (v : PyVal) :
    getKey (setKey m k v) k = some v := by
  induction m with
  | nil => simp [setKey, getKey]
  | cons kv rest ih =>
    by_cases h : kv.1 = k
    · simp [setKey, getKey, h]
    · simp [setKey, getKey, h, ih]

theorem getKey_setKey_other (m : List (String × PyVal)) (k k' : String) (v : PyVal)
    (h : k' ≠ k) : getKey (setKey m k v) k' = getKey m k' := by
  induction m with
  | nil => simp [setKey, getKey, Ne.symm h]
  | cons kv rest ih =>
    by_cases hk : kv.1 = k
    · subst hk
      simp [setKey, getKey, Ne.symm h]
    · by_cases hk' : kv.1 = k'
      · simp [setKey, getKey, hk, hk', h]
      · simp [setKey, getKey, hk, hk', ih]

theorem getDoc_updateDoc_self (s : Store) (i : String) (f : NewsItem → NewsItem) :
    getDoc (updateDoc s i f) i = (getDoc s i).map f := by
  induction s with
  | nil => rfl
  | cons kv rest ih =>
    by_cases h : kv.1 = i
    · simp [updateDoc, getDoc, h]
    · simp [updateDoc, getDoc, h, ih]

theorem getDoc_updateDoc_other (s : Store) (i i' : String) (f : NewsItem → NewsItem)
    (h : i' ≠ i) : getDoc (updateDoc s i f) i' = getDoc s i' := by
  induction s with
  | nil => rfl
  | cons kv rest ih =>
    by_cases hk : kv.1 = i
    · subst hk
      simp [updateDoc, getDoc, Ne.symm h]
    · by_cases hk' : kv.1 = i'
      · simp [updateDoc, getDoc, hk, hk', h]
      · simp [updateDoc, getDoc, hk, hk', ih]

theorem getDoc_append_none (s t : Store) (i : String) (h : getDoc s i = Option.none) :
    getDoc (s ++ t) i = getDoc t i := by
  induction s with
  | nil => rfl
  | cons kv rest ih =>
    by_cases hk : kv.1 = i
    · simp [getDoc, hk] at h
    · simp [getDoc, hk] at h
      simp only [List.cons_append]
      simp [getDoc, hk]
      exact ih h

theorem getDoc_replaceById_self (s : Store) (doc : NewsItem)
    (h : (getDoc s doc.id).isSome) : getDoc (replaceById s doc) doc.id = some doc := by
  induction s with
  | nil => simp [getDoc] at h
  | cons kv rest ih =>
    by_cases hk : kv.1 = doc.id
    · simp [replaceById, getDoc, hk]
    · simp [getDoc, hk] at h
      simp [replaceById, getDoc, hk, ih h]

theorem getDoc_upsertDoc_self (s : Store) (doc : NewsItem) :
    getDoc (upsertDoc s doc) doc.id = some doc := by
  unfold upsertDoc
  cases h : getDoc s doc.id with
  | none =>
    rw [getDoc_append_none s _ _ h]
    simp [getDoc]
  | some d =>
    exact getDoc_replaceById_self s doc (by simp [h])

theorem countId_updateDoc (s : Store) (i : String) (f : NewsItem → NewsItem) (i' : String) :
    countId (updateDoc s i f) i' = countId s i' := by
  induction s with
  | nil => rfl
  | cons kv rest ih =>
    by_cases hk : kv.1 = i
    · simp [updateDoc, countId, hk]
    · simp [updateDoc, countId, hk, ih]

theorem countId_replaceById (s : Store) (doc : NewsItem) :
    countId (replaceById s doc) doc.id = countId s doc.id := by
  induction s with
  | nil => rfl
  | cons kv rest ih =>
    by_cases hk : kv.1 = doc.id
    · simp [replaceById, countId, hk]
    · simp [replaceById, countId, hk, ih]

theorem countId_append (s t : Store) (i : String) :
    countId (s ++ t) i = countId s i + countId t i := by
  induction s with
  | nil => simp [countId]
  | cons kv rest ih =>
    simp only [List.cons_append, countId]
    rw [show (rest.append t) = rest ++ t from rfl, ih]
    omega

theorem countId_pos_of_getDoc_some (s : Store) (i : String)
    (h : (getDoc s i).isSome) : 1 ≤ countId s i := by
  induction s with
  | nil => simp [getDoc] at h
  | cons kv rest ih =>
    by_cases hk : kv.1 = i
    · simp [countId, hk]
    · simp [getDoc, hk] at h
      have := ih h
      simp [countId, hk]
      omega

theorem countId_zero_of_getDoc_none (s : Store) (i : String)
    (h : getDoc s i = Option.none) : countId s i = 0 := by
  induction s with
  | nil => rfl
  | cons kv rest ih =>
    by_cases hk : kv.1 = i
    · simp [getDoc, hk] at h
    · simp [getDoc, hk] at h
      simp [countId, hk, ih h]

theorem countId_upsertDoc (s : Store) (doc : NewsItem)
    (h : countId s doc.id ≤ 1) : countId (upsertDoc s doc) doc.id = 1 := by
  unfold upsertDoc
  cases hg : getDoc s doc.id with
  | none =>
    rw [countId_append]
    rw [countId_zero_of_getDoc_none s _ hg]
    simp [countId]
  | some d =>
    rw [countId_replaceById]
    have := countId_pos_of_getDoc_some s doc.id (by simp [hg])
    omega

/-- Outcome of one underlying generation call, as seen at the end of the
`try` block of `BaseAgent._get_llm_response` (respectively the `try` block
of `FinalizerAgent.execute`): either the JSON-parsed response, or the
description of the exception that was raised inside the block. -/
inductive LlmOutcome where
  | parsed : PyVal → LlmOutcome
  | fault : String → LlmOutcome

/-- `BaseAgent._get_llm_response`: return the parsed response, or on any
exception the record `{"error": str(e)}`. -/
def llmResponse : LlmOutcome → PyVal
  | .parsed v => v
  | .fault e => .dict [("error", .str e)]

/-- The classification agents registered by `Orchestrator.__init__`, in
declared order, by their `agent_name`. -/
def agentNames : List String :=
  ["urgency_agent", "sensitivity_agent", "topic_agent", "type_agent", "recipient_agent"]

/-- Environment of one `process_file` run: the generation-service outcome
for each classification agent and for the finalizer, whether the
orchestrator's final `update_one` raises (`some msg` = a store failure with
that message), and which recipient file writes succeed. -/
structure Oracle where
  classify : String → LlmOutcome
  finalize : LlmOutcome
  finUpdate : Option String
  write : Nat → Bool

/-- The `$set {"agents_results.<name>": record}` of `BaseAgent.process`:
a namespace-scoped partial update of one document. -/
def mergeStageResult (d : NewsItem) (name : String) (record : PyVal) : NewsItem :=
  { d with agents_results := setKey d.agents_results name record }

/-- The sanitized record a classification agent commits
(`cleaned_result` in `BaseAgent.process`). -/
def stageRecord (o : Oracle) (name : String) : PyVal :=
  sanitizeMongoKeys (llmResponse (o.classify name))

/-- One iteration of the orchestrator's agent loop: `agent.process`
committing its sanitized result under its own namespace. -/
def runAgent (o : Oracle) (s : Store) (i name : String) : Store :=
  updateDoc s i (fun d => mergeStageResult d name (stageRecord o name))

/-- The orchestrator's `for agent in self.agents` loop over the store. -/
def runAgents (o : Oracle) : List String → Store → String → Store
  | [], s, _ => s
  | n :: rest, s, i => runAgents o rest (runAgent o s i n) i

/-- Cumulative effect of the agent loop on the document at the processed id. -/
def applyAgents (o : Oracle) : List String → NewsItem → NewsItem
  | [], d => d
  | n :: rest, d => applyAgents o rest (mergeStageResult d n (stageRecord o n))

/-- `FinalizerAgent.execute`: the parsed response, or on any exception the
fallback record `{"is_safe": False, "final_recipients": [], "error": str(e)}`. -/
def finalizerResult (o : Oracle) : PyVal :=
  match o.finalize with
  | .parsed v => v
  | .fault e =>
      .dict [("is_safe", .bool false), ("final_recipients", .list []), ("error", .str e)]

/-- The fresh document built at the top of `Orchestrator.process_file`. -/
def mkNewsItem (i filename content : String) (now : Nat) : NewsItem :=
  { id := i, filename := filename, content := content, status := "processing",
    agents_results := [], final_decision := Option.none, errorMsg := Option.none,
    created_at := now }

/-- Where the source artifact currently lives: the feed directory, the
error directory (`_move_to_error`), or deleted (`os.remove`). -/
inductive ArtifactLoc where
  | feed
  | errorSink
  | removed
deriving DecidableEq

/-- One recipient deposit made by `_distribute`: the copied article and the
sibling metadata record, in the resolved recipient directory. -/
structure Delivery where
  dirSlug : String
  articleName : String
  articleContent : String
  metaName : String
  metadata : PyVal

/-- `Orchestrator._slugify`: `text.lower().replace(" ", "_").replace("/", "-")`. -/
def slugify (text : String) : String :=
  ⟨replaceCharList '/' '-' (replaceCharList ' ' '_' (text.data.map Char.toLower))⟩

/-- Python truthiness (`if not recipients`) for the values of our model. -/
def pyFalsy : PyVal → Bool
  | .str s => s.isEmpty
  | .int n => n == 0
  | .bool b => !b
  | .none => true
  | .list xs => xs.isEmpty
  | .dict kvs => kvs.isEmpty

/-- Python iteration (`for recipient in recipients`): lists yield their
elements, strings their characters, dicts their keys; other values raise. -/
def pyIter : PyVal → Except String (List PyVal)
  | .list xs => .ok xs
  | .str s => .ok (s.data.map fun c => .str ⟨[c]⟩)
  | .dict kvs => .ok (kvs.map fun kv => .str kv.1)
  | _ => .error "TypeError: object is not iterable"

/-- The metadata record `_distribute` writes next to each copy. -/
def mkMeta (item : NewsItem) (final : PyVal) : PyVal :=
  .dict [("original_filename", .str item.filename), ("id", .str item.id),
    ("metadata", final)]

/-- The deposit for one recipient: directory `slugify(recipient)`, a copy
of the article under its original name, and `<name>.json` metadata. -/
def mkDelivery (recipient filename content : String) (meta : PyVal) : Delivery :=
  { dirSlug := slugify recipient, articleName := filename, articleContent := content,
    metaName := filename ++ ".json", metadata := meta }

/-- The `for recipient in recipients` loop of `_distribute`.  `w i` tells
whether the file-system writes for the `i`-th recipient succeed; the first
failing write raises, aborting the loop (deposits made so far remain). -/
def fanOut (w : Nat → Bool) (filename content : String) (meta : PyVal) :
    List PyVal → Nat → List Delivery × Option String
  | [], _ => ([], Option.none)
  | r :: rest, i =>
      match r with
      | .str s =>
          if w i then
            let res := fanOut w filename content meta rest (i + 1)
            (mkDelivery s filename content meta :: res.1, res.2)
          else ([], some "copy failed")
      | _ => ([], some "AttributeError: lower")

/-- Result of `Orchestrator._distribute`: the deposits made, where the
source artifact ended up, and the exception it raised, if any. -/
structure DistOutcome where
  deliveries : List Delivery
  sourceLoc : ArtifactLoc
  exn : Option String

/-- Embedding of `Orchestrator._distribute`: read
`final_decision.final_recipients`; if falsy, move the source to the error
directory; otherwise fan out to every recipient and only then remove the
source.  An exception leaves the source where it was. -/
def distribute (w : Nat → Bool) (item : NewsItem) (content : String)
    (src : ArtifactLoc) : DistOutcome :=
  match item.final_decision.getD (.dict []) with
  | .dict kvs =>
      let recipientsVal := (getKey kvs "final_recipients").getD (.list [])
      if pyFalsy recipientsVal then
        { deliveries := [], sourceLoc := .errorSink, exn := Option.none }
      else
        match pyIter recipientsVal with
        | .error e => { deliveries := [], sourceLoc := src, exn := some e }
        | .ok rs =>
            let res := fanOut w item.filename content (mkMeta item (.dict kvs)) rs 0
            match res.2 with
            | Option.none => { deliveries := res.1, sourceLoc := .removed, exn := Option.none }
            | some e => { deliveries := res.1, sourceLoc := src, exn := some e }
  | _ => { deliveries := [], sourceLoc := src, exn := some "AttributeError: get" }

/-- The persistent world a run of `process_file` acts on: the document
collection and the recipient deposits accumulated so far. -/
structure SysState where
  store : Store
  deliveries : List Delivery

/-- The orchestrator's `$set {"final_decision": ..., "status": "completed"}`. -/
def setCompleted (final : PyVal) (d : NewsItem) : NewsItem :=
  { d with final_decision := some final, status := "completed" }

/-- The orchestrator's exception handler update:
`$set {"status": "error", "error": str(e)}`. -/
def setErrorStatus (msg : String) (d : NewsItem) : NewsItem :=
  { d with status := "error", errorMsg := some msg }

/-- Embedding of `Orchestrator.process_file` on one artifact with the given
name and byte content: fingerprint, upsert a fresh `"processing"` document,
run the five classification agents, run the finalizer and commit its result
under `agents_results.finalizer_agent`, then either commit
`final_decision`/`"completed"` and distribute, or — when the final store
update or the distribution raises — set `"error"` status and move the
source artifact to the error directory.  Returns the updated world and this
artifact's final location. -/
def processFile (hash : String → String) (o : Oracle) (now : Nat)
    (filename content : String) (st : SysState) : SysState × ArtifactLoc :=
  let i := hash content
  let s0 := upsertDoc st.store (mkNewsItem i filename content now)
  let s1 := runAgents o agentNames s0 i
  let cleaned := sanitizeMongoKeys (finalizerResult o)
  let s2 := updateDoc s1 i (fun d => mergeStageResult d "finalizer_agent" cleaned)
  match o.finUpdate with
  | some msg =>
      ({ store := updateDoc s2 i (setErrorStatus msg), deliveries := st.deliveries },
        .errorSink)
  | Option.none =>
      let s3 := updateDoc s2 i (setCompleted cleaned)
      match getDoc s3 i with
      | some item =>
          let dres := distribute o.write item content .feed
          match dres.exn with
          | Option.none =>
              ({ store := s3, deliveries := st.deliveries ++ dres.deliveries },
                dres.sourceLoc)
          | some msg =>
              ({ store := updateDoc s3 i (setErrorStatus msg),
                 deliveries := st.deliveries ++ dres.deliveries }, .errorSink)
      | Option.none =>
          ({ store := updateDoc s3 i (setErrorStatus "AttributeError: get"),
             deliveries := st.deliveries }, .errorSink)

theorem getDoc_runAgents (o : Oracle) : ∀ (names : List String) (s : Store) (i : String),
    getDoc (runAgents o names s i) i = (getDoc s i).map (applyAgents o names) := by
  intro names
  induction names with
  | nil =>
    intro s i
    cases h : getDoc s i <;> simp [runAgents, applyAgents, h]
  | cons n rest ih =>
    intro s i
    rw [runAgents, ih, runAgent, getDoc_updateDoc_self]
    cases h : getDoc s i <;> simp [applyAgents, h]

theorem countId_runAgents (o : Oracle) : ∀ (names : List String) (s : Store) (i i' : String),
    countId (runAgents o names s i) i' = countId s i' := by
  intro names
  induction names with
  | nil => intro s i i'; rfl
  | cons n rest ih =>
    intro s i i'
    rw [runAgents, ih, runAgent, countId_updateDoc]

theorem applyAgents_eq_record (o : Oracle) : ∀ (names : List String) (d : NewsItem),
    ∃ ar, applyAgents o names d = { d with agents_results := ar } := by
  intro names
  induction names with
  | nil => intro d; exact ⟨d.agents_results, rfl⟩
  | cons n rest ih =>
    intro d
    obtain ⟨ar, har⟩ := ih (mergeStageResult d n (stageRecord o n))
    exact ⟨ar, by rw [applyAgents, har]; rfl⟩

theorem applyAgents_getKey_not_mem (o : Oracle) :
    ∀ (names : List String) (d : NewsItem) (name : String), name ∉ names →
      getKey (applyAgents o names d).agents_results name = getKey d.agents_results name := by
  intro names
  induction names with
  | nil => intro d name _; rfl
  | cons n rest ih =>
    intro d name hmem
    simp only [List.mem_cons, not_or] at hmem
    rw [applyAgents, ih _ _ hmem.2, mergeStageResult]
    exact getKey_setKey_other _ _ _ _ hmem.1

theorem applyAgents_getKey_mem (o : Oracle) :
    ∀ (names : List String) (d : NewsItem) (name : String), names.Nodup → name ∈ names →
      getKey (applyAgents o names d).agents_results name = some (stageRecord o name) := by
  intro names
  induction names with
  | nil => intro d name _ hmem; simp at hmem
  | cons n rest ih =>
    intro d name hnd hmem
    rw [List.nodup_cons] at hnd
    rw [applyAgents]
    rcases List.mem_cons.mp hmem with rfl | hmem'
    · rw [applyAgents_getKey_not_mem o rest _ _ hnd.1, mergeStageResult]
      exact getKey_setKey_self _ _ _
    · exact ih _ _ hnd.2 hmem'

/-- The document as it stands right after the finalizer's own commit
(`agents_results.finalizer_agent`), before the orchestrator's final update. -/
def pipelineDoc (hash : String → String) (o : Oracle) (now : Nat)
    (filename content : String) : NewsItem :=
  mergeStageResult
    (applyAgents o agentNames (mkNewsItem (hash content) filename content now))
    "finalizer_agent" (sanitizeMongoKeys (finalizerResult o))

theorem getDoc_pipeline (hash : String → String) (o : Oracle) (now : Nat)
    (filename content : String) (s : Store) :
    getDoc
      (updateDoc
        (runAgents o agentNames
          (upsertDoc s (mkNewsItem (hash content) filename content now)) (hash content))
        (hash content)
        (fun d => mergeStageResult d "finalizer_agent"
          (sanitizeMongoKeys (finalizerResult o))))
      (hash content)
      = some (pipelineDoc hash o now filename content) := by
  rw [getDoc_updateDoc_self, getDoc_runAgents]
  rw [show getDoc (upsertDoc s (mkNewsItem (hash content) filename content now)) (hash content)
      = some (mkNewsItem (hash content) filename content now) from
    getDoc_upsertDoc_self s (mkNewsItem (hash content) filename content now)]
  rfl

theorem fanOut_success (w : Nat → Bool) (filename content : String) (meta : PyVal) :
    ∀ (rs : List String) (k : Nat), (∀ j, j < rs.length → w (k + j) = true) →
      fanOut w filename content meta (rs.map PyVal.str) k
        = (rs.map (fun r => mkDelivery r filename content meta), Option.none) := by
  intro rs
  induction rs with
  | nil => intro k _; rfl
  | cons r rest ih =>
    intro k hw
    have h0 : w k = true := by simpa using hw 0 (by simp)
    have hrest : ∀ j, j < rest.length → w (k + 1 + j) = true := by
      intro j hj
      have := hw (j + 1) (by simp; omega)
      simpa [Nat.add_assoc, Nat.add_comm 1 j] using this
    simp only [List.map_cons, fanOut, h0, if_true]
    rw [ih (k + 1) hrest]

theorem fanOut_failure (w : Nat → Bool) (filename content : String) (meta : PyVal) :
    ∀ (rs : List String) (k : Nat), (∃ j, j < rs.length ∧ w (k + j) = false) →
      (fanOut w filename content meta (rs.map PyVal.str) k).2 ≠ Option.none := by
  intro rs
  induction rs with
  | nil =>
    intro k h
    obtain ⟨j, hj, _⟩ := h
    simp at hj
  | cons r rest ih =>
    intro k h
    cases h0 : w k with
    | false => simp [fanOut, h0]
    | true =>
      obtain ⟨j, hj, hwj⟩ := h
      cases j with
      | zero => rw [Nat.add_zero] at hwj; rw [h0] at hwj; cases hwj
      | succ j' =>
        have hrest : ∃ j, j < rest.length ∧ w (k + 1 + j) = false := by
          refine ⟨j', by simpa using hj, ?_⟩
          have : k + 1 + j' = k + (j' + 1) := by omega
          rw [this]
          exact hwj
        simp only [List.map_cons, fanOut, h0, if_true]
        exact ih (k + 1) hrest

theorem distribute_no_recipients (w : Nat → Bool) (item : NewsItem) (content : String)
    (src : ArtifactLoc) (kvs : List (String × PyVal))
    (hfd : item.final_decision = some (.dict kvs))
    (hrec : getKey kvs "final_recipients" = some (.list [])) :
    distribute w item content src
      = { deliveries := [], sourceLoc := .errorSink, exn := Option.none } := by
  simp [distribute, hfd, hrec, pyFalsy]

theorem distribute_success (w : Nat → Bool) (item : NewsItem) (content : String)
    (src : ArtifactLoc) (kvs : List (String × PyVal)) (rs : List String)
    (hfd : item.final_decision = some (.dict kvs))
    (hrec : getKey kvs "final_recipients" = some (.list (rs.map PyVal.str)))
    (hne : rs ≠ [])
    (hw : ∀ j, j < rs.length → w j = true) :
    distribute w item content src
      = { deliveries := rs.map (fun r => mkDelivery r item.filename content (mkMeta item (.dict kvs))),
          sourceLoc := .removed, exn := Option.none } := by
  have hfalsy : pyFalsy (.list (rs.map PyVal.str)) = false := by
    simp [pyFalsy, hne]
  have hfan := fanOut_success w item.filename content (mkMeta item (.dict kvs)) rs 0
    (by intro j hj; simpa using hw j hj)
  simp [distribute, hfd, hrec, hfalsy, pyIter, hfan]

theorem distribute_partial_failure (w : Nat → Bool) (item : NewsItem) (content : String)
    (src : ArtifactLoc) (kvs : List (String × PyVal)) (rs : List String)
    (hfd : item.final_decision = some (.dict kvs))
    (hrec : getKey kvs "final_recipients" = some (.list (rs.map PyVal.str)))
    (hj : ∃ j, j < rs.length ∧ w j = false) :
    (distribute w item content src).sourceLoc = src
      ∧ (distribute w item content src).exn ≠ Option.none := by
  have hne : rs ≠ [] := by
    obtain ⟨j, hjl, _⟩ := hj
    intro h
    rw [h] at hjl
    simp at hjl
  have hfalsy : pyFalsy (.list (rs.map PyVal.str)) = false := by
    simp [pyFalsy, hne]
  have hfan := fanOut_failure w item.filename content (mkMeta item (.dict kvs)) rs 0
    (by obtain ⟨j, hjl, hwj⟩ := hj; exact ⟨j, hjl, by simpa using hwj⟩)
  cases hout : (fanOut w item.filename content (mkMeta item (.dict kvs)) (rs.map PyVal.str) 0).2 with
  | none => exact absurd hout hfan
  | some e =>
    constructor
    · simp [distribute, hfd, hrec, hfalsy, pyIter, hout]
    · simp [distribute, hfd, hrec, hfalsy, pyIter, hout]

theorem processFile_doc_shape (hash : String → String) (o : Oracle) (now : Nat)
    (filename content : String) (st : SysState) :
    ∃ g : NewsItem → NewsItem, (∀ d, (g d).agents_results = d.agents_results) ∧
      (∀ d, (g d).created_at = d.created_at) ∧
      getDoc (processFile hash o now filename content st).1.store (hash content)
        = some (g (pipelineDoc hash o now filename content)) := by
  cases hfin : o.finUpdate with
  | some msg =>
    refine ⟨setErrorStatus msg, fun d => rfl, fun d => rfl, ?_⟩
    simp only [processFile, hfin]
    rw [getDoc_updateDoc_self, getDoc_pipeline]
    rfl
  | none =>
    have h3 : getDoc
        (updateDoc
          (updateDoc
            (runAgents o agentNames
              (upsertDoc st.store (mkNewsItem (hash content) filename content now))
              (hash content))
            (hash content)
            (fun d => mergeStageResult d "finalizer_agent"
              (sanitizeMongoKeys (finalizerResult o))))
          (hash content)
          (setCompleted (sanitizeMongoKeys (finalizerResult o))))
        (hash content)
        = some (setCompleted (sanitizeMongoKeys (finalizerResult o))
            (pipelineDoc hash o now filename content)) := by
      rw [getDoc_updateDoc_self, getDoc_pipeline]
      rfl
    simp only [processFile, hfin, h3]
    cases hexn : (distribute o.write
        (setCompleted (sanitizeMongoKeys (finalizerResult o))
          (pipelineDoc hash o now filename content)) content .feed).exn with
    | none =>
      refine ⟨setCompleted (sanitizeMongoKeys (finalizerResult o)), fun d => rfl, fun d => rfl, ?_⟩
      simp only [hexn]
      exact h3
    | some msg =>
      refine ⟨fun d => setErrorStatus msg
        (setCompleted (sanitizeMongoKeys (finalizerResult o)) d), fun d => rfl, fun d => rfl, ?_⟩
      simp only [hexn]
      rw [getDoc_updateDoc_self, h3]
      rfl

/-- C4 counterexample, two parts.  First, the key `"a$b"` contains no
separator character and does not start with the reserved-prefix character,
so under the claim's characterization it would be left untouched;
`_sanitize_mongo_keys` nevertheless rewrites it to `"a_b"`, substituting
`'_'` for every occurrence of `'$'`, not only a leading one.  Second, the
claim's "leaving all scalar values (and the overall structure) untouched"
fails: when two distinct keys collide after rewriting, the dict
comprehension keeps only the last value, so the entry `("a.b", 1)` and its
scalar value are dropped from `{"a.b": 1, "a_b": 2}`. -/
theorem sanitize_leading_only_cex :
    specNeedsRewrite "a$b" = false
      ∧ sanitizeMongoKeys (.dict [("a$b", .int 1)]) = .dict [("a_b", .int 1)]
      ∧ ("a_b" : String) ≠ "a$b"
      ∧ sanitizeMongoKeys (.dict [("a.b", .int 1), ("a_b", .int 2)])
        = .dict [("a_b", .int 2)] :=
  ⟨by decide, rfl, by decide, rfl⟩

/-- C4 (amended): `sanitize` is a total pure function that, at every depth,
rewrites every mapping key by substituting the placeholder `'_'` for every
occurrence of the separator `'.'` and every occurrence (not only a leading
one) of the reserved-prefix `'$'`, and rebuilds the mapping from the
rewritten pairs in iteration order with last-value-wins on keys that
collide after rewriting (so a collision drops the earlier entry); the
resulting mapping has no duplicate keys; sequences are mapped elementwise,
every non-mapping non-sequence input is returned unchanged, rewritten keys
contain neither illegal character, and keys free of both characters are
kept verbatim; it never fails. -/
theorem sanitize_characterization :
    (∀ kvs, sanitizeMongoKeys (.dict kvs)
        = .dict (pyDictOfPairs
            (kvs.map fun kv => (sanitizeKey kv.1, sanitizeMongoKeys kv.2))))
      ∧ (∀ kvs, (keysOf (pyDictOfPairs kvs)).Nodup)
      ∧ (∀ xs, sanitizeMongoKeys (.list xs) = .list (xs.map sanitizeMongoKeys))
      ∧ (∀ s, sanitizeMongoKeys (.str s) = .str s)
      ∧ (∀ n, sanitizeMongoKeys (.int n) = .int n)
      ∧ (∀ b, sanitizeMongoKeys (.bool b) = .bool b)
      ∧ sanitizeMongoKeys .none = .none
      ∧ (∀ k, '.' ∉ (sanitizeKey k).data ∧ '$' ∉ (sanitizeKey k).data)
      ∧ (∀ k, '.' ∉ k.data → '$' ∉ k.data → sanitizeKey k = k) :=
  ⟨fun kvs => by rw [sanitizeMongoKeys, sanitizePairs_eq_map],
   pyDictOfPairs_nodup,
   fun xs => by rw [sanitizeMongoKeys, sanitizeVals_eq_map],
   fun _ => rfl, fun _ => rfl, fun _ => rfl, rfl,
   fun k => ⟨sanitizeKey_no_dot k, sanitizeKey_no_dollar k⟩,
   sanitizeKey_id_of_clean⟩

/-- Witness for C4 (amended) at concrete inputs: a clean key is kept, a key
with a separator is rewritten, and a rewriting collision keeps the last
value only. -/
theorem sanitize_characterization_witness :
    sanitizeKey "safe_key" = "safe_key"
      ∧ sanitizeMongoKeys (.dict [("a.b", .int 1)]) = .dict [("a_b", .int 1)]
      ∧ sanitizeMongoKeys (.dict [("a.b", .int 1), ("a_b", .int 2)])
        = .dict [("a_b", .int 2)] :=
  ⟨sanitize_characterization.2.2.2.2.2.2.2.2 "safe_key" (by decide) (by decide),
   rfl, rfl⟩

/-- C10: key sanitization is idempotent — applying `_sanitize_mongo_keys`
twice yields the same result as applying it once. -/
theorem sanitize_idempotent (v : PyVal) :
    sanitizeMongoKeys (sanitizeMongoKeys v) = sanitizeMongoKeys v :=
  sanitizeMongoKeys_idem v

/-- C5: committing stage `b`'s result is namespace-isolated — the
`$set {"agents_results.<b>": record}` of `BaseAgent.process` sets exactly
stage `b`'s entry, and for any other stage name `a` leaves stage `a`'s
entry and the document's raw content unchanged. -/
theorem merge_stage_result_isolated (d : NewsItem) (a b : String) (r : PyVal)
    (h : a ≠ b) :
    getKey (mergeStageResult d b r).agents_results a = getKey d.agents_results a
      ∧ (mergeStageResult d b r).content = d.content
      ∧ getKey (mergeStageResult d b r).agents_results b = some r :=
  ⟨getKey_setKey_other _ _ _ _ h, rfl, getKey_setKey_self _ _ _⟩

/-- A concrete document holding one committed stage result, used to
instantiate the claims at concrete inputs. -/
def sampleItem : NewsItem :=
  { id := "h1", filename := "breaking_news.txt", content := "URGENT: outage",
    status := "processing",
    agents_results := [("urgency_agent", .dict [("level", .str "Immediate")])],
    final_decision := Option.none, errorMsg := Option.none, created_at := 0 }

/-- Witness for C5: committing the recipient stage after the urgency stage
leaves the urgency entry and the raw content as they were. -/
theorem merge_stage_result_isolated_witness :
    getKey (mergeStageResult sampleItem "recipient_agent"
        (.dict [("recipients", .list [.str "Engineering"])])).agents_results "urgency_agent"
      = getKey sampleItem.agents_results "urgency_agent"
      ∧ (mergeStageResult sampleItem "recipient_agent"
          (.dict [("recipients", .list [.str "Engineering"])])).content = sampleItem.content
      ∧ getKey (mergeStageResult sampleItem "recipient_agent"
          (.dict [("recipients", .list [.str "Engineering"])])).agents_results "recipient_agent"
        = some (.dict [("recipients", .list [.str "Engineering"])]) :=
  merge_stage_result_isolated sampleItem "urgency_agent" "recipient_agent"
    (.dict [("recipients", .list [.str "Engineering"])]) (by decide)

theorem mem_agentNames_ne_finalizer (name : String) (h : name ∈ agentNames) :
    name ≠ "finalizer_agent" := by
  simp only [agentNames, List.mem_cons, List.not_mem_nil, or_false] at h
  rcases h with rfl | rfl | rfl | rfl | rfl <;> decide

theorem sanitize_error_record (e : String) :
    sanitizeMongoKeys (.dict [("error", .str e)]) = .dict [("error", .str e)] := by
  simp only [sanitizeMongoKeys, sanitizePairs]
  rfl

/-- C3: a classification stage whose generation call faults has the fault
caught, converted to `{"error": <description>}`, and committed as that
stage's entry; every registered stage still has a committed entry and the
finalizer's result is committed as well — the pipeline always reaches
finalization. -/
theorem stage_fault_recorded_pipeline_continues (hash : String → String) (o : Oracle)
    (now : Nat) (filename content : String) (st : SysState) (name e : String)
    (hmem : name ∈ agentNames) (hfault : o.classify name = .fault e) :
    ∃ d, getDoc (processFile hash o now filename content st).1.store (hash content) = some d
      ∧ getKey d.agents_results name = some (.dict [("error", .str e)])
      ∧ (∀ n, n ∈ agentNames → (getKey d.agents_results n).isSome = true)
      ∧ getKey d.agents_results "finalizer_agent"
          = some (sanitizeMongoKeys (finalizerResult o)) := by
  obtain ⟨g, hgar, _, hdoc⟩ := processFile_doc_shape hash o now filename content st
  refine ⟨_, hdoc, ?_, ?_, ?_⟩
  · rw [hgar]
    simp only [pipelineDoc, mergeStageResult]
    rw [getKey_setKey_other _ _ _ _ (mem_agentNames_ne_finalizer name hmem)]
    rw [applyAgents_getKey_mem o agentNames _ name (by decide) hmem]
    simp only [stageRecord, hfault, llmResponse]
    rw [sanitize_error_record]
  · intro n hn
    rw [hgar]
    simp only [pipelineDoc, mergeStageResult]
    rw [getKey_setKey_other _ _ _ _ (mem_agentNames_ne_finalizer n hn)]
    rw [applyAgents_getKey_mem o agentNames _ n (by decide) hn]
    rfl
  · rw [hgar]
    simp only [pipelineDoc, mergeStageResult]
    exact getKey_setKey_self _ _ _

/-- Oracle in which the topic stage's generation call raises and everything
else succeeds. -/
def oFault : Oracle :=
  ⟨fun n => if n = "topic_agent" then .fault "boom" else .parsed (.dict []),
   .parsed (.dict [("final_recipients", .list [.str "HR"])]),
   Option.none, fun _ => true⟩

/-- Witness for C3: with the topic stage faulting, its `{"error": ...}`
record, all five stage entries, and the finalizer's entry are committed. -/
theorem stage_fault_recorded_pipeline_continues_witness :
    ∃ d, getDoc (processFile (fun s => s) oFault 0 "a.txt" "bytes"
        ⟨[], []⟩).1.store ((fun s => s) "bytes") = some d
      ∧ getKey d.agents_results "topic_agent" = some (.dict [("error", .str "boom")])
      ∧ (∀ n, n ∈ agentNames → (getKey d.agents_results n).isSome = true)
      ∧ getKey d.agents_results "finalizer_agent"
          = some (sanitizeMongoKeys (finalizerResult oFault)) :=
  stage_fault_recorded_pipeline_continues (fun s => s) oFault 0 "a.txt" "bytes"
    ⟨[], []⟩ "topic_agent" "boom" (by decide) rfl

/-- Oracle in which the finalizer's generation call raises (so
`FinalizerAgent.execute` returns its fallback record carrying an `error`
field) while every store operation succeeds. -/
def oErrRecord : Oracle :=
  ⟨fun _ => .parsed (.dict []), .fault "boom", Option.none, fun _ => true⟩

/-- C2 counterexample: when the Finalizer returns a record containing an
`error` field (without raising), the Orchestrator still commits it as
`final_decision` and sets the status to `"completed"` — not to the
quarantine status `"error"` — so the Document is marked Completed on this
path, contradicting the claim. (The artifact does reach the error sink,
but only through the empty-recipient distribution branch.) -/
theorem finalizer_error_record_completed_cex :
    (getDoc (processFile (fun s => s) oErrRecord 0 "doc.txt" "body"
        ⟨[], []⟩).1.store "body").map NewsItem.status = some "completed"
      ∧ (getDoc (processFile (fun s => s) oErrRecord 0 "doc.txt" "body"
          ⟨[], []⟩).1.store "body").map NewsItem.status ≠ some "error"
      ∧ (getDoc (processFile (fun s => s) oErrRecord 0 "doc.txt" "body"
          ⟨[], []⟩).1.store "body").map NewsItem.final_decision
        = some (some (.dict [("is_safe", .bool false),
            ("final_recipients", .list []), ("error", .str "boom")]))
      ∧ (processFile (fun s => s) oErrRecord 0 "doc.txt" "body" ⟨[], []⟩).2
        = ArtifactLoc.errorSink :=
  ⟨rfl, by decide, rfl, rfl⟩

/-- C2 (amended): only when the finalization phase raises (here: the final
store update fails) does the Orchestrator set the quarantine status
`"error"`, record the error message, and move the source artifact to the
error sink; the Document is never marked `"completed"` on that path.  A
Finalizer-returned error record is instead committed with status
`"completed"` (see the counterexample). -/
theorem finalizer_raise_quarantines (hash : String → String) (o : Oracle) (now : Nat)
    (filename content : String) (st : SysState) (msg : String)
    (hfin : o.finUpdate = some msg) :
    (getDoc (processFile hash o now filename content st).1.store (hash content)).map
        NewsItem.status = some "error"
      ∧ (getDoc (processFile hash o now filename content st).1.store (hash content)).map
          NewsItem.errorMsg = some (some msg)
      ∧ (getDoc (processFile hash o now filename content st).1.store (hash content)).map
          NewsItem.status ≠ some "completed"
      ∧ (processFile hash o now filename content st).2 = ArtifactLoc.errorSink
      ∧ (processFile hash o now filename content st).1.deliveries = st.deliveries := by
  have hdoc : getDoc (processFile hash o now filename content st).1.store (hash content)
      = some (setErrorStatus msg (pipelineDoc hash o now filename content)) := by
    simp only [processFile, hfin]
    rw [getDoc_updateDoc_self, getDoc_pipeline]
    rfl
  refine ⟨?_, ?_, ?_, ?_, ?_⟩
  · rw [hdoc]; rfl
  · rw [hdoc]; rfl
  · rw [hdoc]; simp [setErrorStatus]
  · simp only [processFile, hfin]
  · simp only [processFile, hfin]

/-- Oracle in which the orchestrator's final store update raises. -/
def oRaise : Oracle :=
  ⟨fun _ => .parsed (.dict []), .parsed (.dict [("final_recipients", .list [.str "HR"])]),
   some "StoreError: update_one failed", fun _ => true⟩

/-- Witness for C2 (amended): with the final store update failing, the
document ends quarantined with the error recorded and the artifact in the
error sink. -/
theorem finalizer_raise_quarantines_witness :
    (getDoc (processFile (fun s => s) oRaise 0 "a.txt" "bytes" ⟨[], []⟩).1.store
        ((fun s => s) "bytes")).map NewsItem.status = some "error"
      ∧ (getDoc (processFile (fun s => s) oRaise 0 "a.txt" "bytes" ⟨[], []⟩).1.store
          ((fun s => s) "bytes")).map NewsItem.errorMsg
        = some (some "StoreError: update_one failed")
      ∧ (getDoc (processFile (fun s => s) oRaise 0 "a.txt" "bytes" ⟨[], []⟩).1.store
          ((fun s => s) "bytes")).map NewsItem.status ≠ some "completed"
      ∧ (processFile (fun s => s) oRaise 0 "a.txt" "bytes" ⟨[], []⟩).2
        = ArtifactLoc.errorSink
      ∧ (processFile (fun s => s) oRaise 0 "a.txt" "bytes" ⟨[], []⟩).1.deliveries
        = (⟨[], []⟩ : SysState).deliveries :=
  finalizer_raise_quarantines (fun s => s) oRaise 0 "a.txt" "bytes" ⟨[], []⟩
    "StoreError: update_one failed" rfl

theorem getDoc_completedDoc (hash : String → String) (o : Oracle) (now : Nat)
    (filename content : String) (s : Store) :
    getDoc
      (updateDoc
        (updateDoc
          (runAgents o agentNames
            (upsertDoc s (mkNewsItem (hash content) filename content now)) (hash content))
          (hash content)
          (fun d => mergeStageResult d "finalizer_agent"
            (sanitizeMongoKeys (finalizerResult o))))
        (hash content) (setCompleted (sanitizeMongoKeys (finalizerResult o))))
      (hash content)
      = some (setCompleted (sanitizeMongoKeys (finalizerResult o))
          (pipelineDoc hash o now filename content)) := by
  rw [getDoc_updateDoc_self, getDoc_pipeline]
  rfl

theorem pipelineDoc_created_at (hash : String → String) (o : Oracle) (now : Nat)
    (filename content : String) :
    (pipelineDoc hash o now filename content).created_at = now := by
  obtain ⟨ar, har⟩ :=
    applyAgents_eq_record o agentNames (mkNewsItem (hash content) filename content now)
  have hstep : (pipelineDoc hash o now filename content).created_at
      = (applyAgents o agentNames (mkNewsItem (hash content) filename content now)).created_at :=
    rfl
  rw [hstep, har]
  rfl

theorem countId_processFile (hash : String → String) (o : Oracle) (now : Nat)
    (filename content : String) (st : SysState)
    (h : countId st.store (hash content) ≤ 1) :
    countId (processFile hash o now filename content st).1.store (hash content) = 1 := by
  cases hfin : o.finUpdate with
  | some msg =>
    simp only [processFile, hfin]
    rw [countId_updateDoc, countId_updateDoc, countId_runAgents]
    exact countId_upsertDoc _ _ h
  | none =>
    simp only [processFile, hfin, getDoc_completedDoc]
    cases hexn : (distribute o.write
        (setCompleted (sanitizeMongoKeys (finalizerResult o))
          (pipelineDoc hash o now filename content)) content .feed).exn with
    | none =>
      simp only [hexn]
      rw [countId_updateDoc, countId_updateDoc, countId_runAgents]
      exact countId_upsertDoc _ _ h
    | some msg =>
      simp only [hexn]
      rw [countId_updateDoc, countId_updateDoc, countId_updateDoc, countId_runAgents]
      exact countId_upsertDoc _ _ h

/-- Oracle in which every stage parses, the finalizer names one recipient
and every store and file operation succeeds. -/
def oIdem : Oracle :=
  ⟨fun _ => .parsed (.dict []),
   .parsed (.dict [("final_recipients", .list [.str "HR"])]),
   Option.none, fun _ => true⟩

/-- C1 counterexample: after a first ingestion completes (terminal status
`"completed"`, one distribution made), re-ingesting the byte-identical
content is not a no-op — the pipeline re-runs, a second distribution
happens (the delivery count doubles) and the Document is replaced (its
`created_at` becomes the second run's timestamp). -/
theorem ingest_not_idempotent_cex :
    (getDoc (processFile (fun s => s) oIdem 0 "a.txt" "bytes"
        ⟨[], []⟩).1.store "bytes").map NewsItem.status = some "completed"
      ∧ (processFile (fun s => s) oIdem 0 "a.txt" "bytes" ⟨[], []⟩).1.deliveries.length = 1
      ∧ (processFile (fun s => s) oIdem 1 "a.txt" "bytes"
          (processFile (fun s => s) oIdem 0 "a.txt" "bytes" ⟨[], []⟩).1).1.deliveries.length = 2
      ∧ (getDoc (processFile (fun s => s) oIdem 1 "a.txt" "bytes"
          (processFile (fun s => s) oIdem 0 "a.txt" "bytes" ⟨[], []⟩).1).1.store
          "bytes").map NewsItem.created_at = some 1 :=
  ⟨rfl, rfl, rfl, rfl⟩

/-- C1 (amended): re-ingesting byte-identical content never creates a
second Document — after any ingestion exactly one Document exists under the
fingerprint id (upsert semantics) — but ingestion performs no
terminal-status check: the stored Document is replaced by a fresh one
(its `created_at` is the new run's timestamp), the pipeline re-runs and
distribution triggers again (see the counterexample). -/
theorem ingest_single_document (hash : String → String) (o : Oracle) (now : Nat)
    (filename content : String) (st : SysState)
    (h : countId st.store (hash content) ≤ 1) :
    countId (processFile hash o now filename content st).1.store (hash content) = 1
      ∧ (getDoc (processFile hash o now filename content st).1.store (hash content)).map
          NewsItem.created_at = some now := by
  refine ⟨countId_processFile hash o now filename content st h, ?_⟩
  obtain ⟨g, _, hgc, hdoc⟩ := processFile_doc_shape hash o now filename content st
  rw [hdoc]
  simp [hgc, pipelineDoc_created_at]

/-- Witness for C1 (amended): from an empty store, ingestion yields exactly
one Document under the fingerprint, stamped with the run's timestamp. -/
theorem ingest_single_document_witness :
    countId (processFile (fun s => s) oIdem 0 "a.txt" "bytes" ⟨[], []⟩).1.store
        ((fun s => s) "bytes") = 1
      ∧ (getDoc (processFile (fun s => s) oIdem 0 "a.txt" "bytes" ⟨[], []⟩).1.store
          ((fun s => s) "bytes")).map NewsItem.created_at = some 0 :=
  ingest_single_document (fun s => s) oIdem 0 "a.txt" "bytes" ⟨[], []⟩ (by decide)

/-- C6: when the committed `final_decision` has an empty
`final_recipients` list, distribution is a delivery failure, not a
pipeline failure — the source artifact is moved to the error sink, no
recipient location receives anything, and the Document remains
`"completed"` with its decision preserved unchanged. -/
theorem no_recipient_quarantine (hash : String → String) (o : Oracle) (now : Nat)
    (filename content : String) (st : SysState) (kvs : List (String × PyVal))
    (hfin : o.finUpdate = Option.none)
    (hfd : sanitizeMongoKeys (finalizerResult o) = .dict kvs)
    (hrec : getKey kvs "final_recipients" = some (.list [])) :
    (processFile hash o now filename content st).2 = ArtifactLoc.errorSink
      ∧ (getDoc (processFile hash o now filename content st).1.store (hash content)).map
          NewsItem.status = some "completed"
      ∧ (getDoc (processFile hash o now filename content st).1.store (hash content)).map
          NewsItem.final_decision = some (some (.dict kvs))
      ∧ (processFile hash o now filename content st).1.deliveries = st.deliveries := by
  have hdist : distribute o.write
      (setCompleted (sanitizeMongoKeys (finalizerResult o))
        (pipelineDoc hash o now filename content)) content .feed
      = { deliveries := [], sourceLoc := .errorSink, exn := Option.none } := by
    apply distribute_no_recipients _ _ _ _ kvs _ hrec
    show some (sanitizeMongoKeys (finalizerResult o)) = some (.dict kvs)
    rw [hfd]
  simp only [processFile, hfin, getDoc_completedDoc, hdist]
  refine ⟨trivial, rfl, ?_, by simp⟩
  simp only [Option.map]
  rw [show (setCompleted (sanitizeMongoKeys (finalizerResult o))
      (pipelineDoc hash o now filename content)).final_decision
    = some (sanitizeMongoKeys (finalizerResult o)) from rfl]
  rw [hfd]

/-- Oracle whose finalizer succeeds but names no recipients. -/
def oNoRec : Oracle :=
  ⟨fun _ => .parsed (.dict []),
   .parsed (.dict [("final_recipients", .list []), ("is_safe", .bool true)]),
   Option.none, fun _ => true⟩

/-- Witness for C6: a successful finalization with an empty recipient list
sends the artifact to the error sink while the Document stays completed
with its decision intact and nothing is delivered. -/
theorem no_recipient_quarantine_witness :
    (processFile (fun s => s) oNoRec 0 "a.txt" "bytes" ⟨[], []⟩).2 = ArtifactLoc.errorSink
      ∧ (getDoc (processFile (fun s => s) oNoRec 0 "a.txt" "bytes" ⟨[], []⟩).1.store
          ((fun s => s) "bytes")).map NewsItem.status = some "completed"
      ∧ (getDoc (processFile (fun s => s) oNoRec 0 "a.txt" "bytes" ⟨[], []⟩).1.store
          ((fun s => s) "bytes")).map NewsItem.final_decision
        = some (some (.dict [("final_recipients", .list []), ("is_safe", .bool true)]))
      ∧ (processFile (fun s => s) oNoRec 0 "a.txt" "bytes" ⟨[], []⟩).1.deliveries
        = (⟨[], []⟩ : SysState).deliveries :=
  no_recipient_quarantine (fun s => s) oNoRec 0 "a.txt" "bytes" ⟨[], []⟩
    [("final_recipients", .list []), ("is_safe", .bool true)] rfl rfl rfl

/-- Oracle in which the sensitivity stage reports the maximal score 10 and
the finalizer's response names the unrestricted "All Employees" recipient
without qualification. -/
def oSens : Oracle :=
  ⟨fun n => if n = "sensitivity_agent" then .parsed (.dict [("score", .int 10)])
    else .parsed (.dict []),
   .parsed (.dict [("is_safe", .bool true),
     ("final_recipients", .list [.str "All Employees"])]),
   Option.none, fun _ => true⟩

/-- C9 counterexample: with a committed sensitivity verdict at the maximal
score 10 (above any high-sensitivity threshold) and a finalizer response
naming the unrestricted "All Employees" recipient, the code commits that
`final_decision` unchanged, marks the Document completed, and delivers to
the `all_employees` location — no code path narrows or blocks the
unrestricted recipient; the safety control exists only as prompt text. -/
theorem safety_override_not_enforced_cex :
    (getDoc (processFile (fun s => s) oSens 0 "memo.txt" "leak" ⟨[], []⟩).1.store
        "leak").map (fun d => getKey d.agents_results "sensitivity_agent")
      = some (some (.dict [("score", .int 10)]))
      ∧ (getDoc (processFile (fun s => s) oSens 0 "memo.txt" "leak" ⟨[], []⟩).1.store
          "leak").map NewsItem.final_decision
        = some (some (.dict [("is_safe", .bool true),
            ("final_recipients", .list [.str "All Employees"])]))
      ∧ (getDoc (processFile (fun s => s) oSens 0 "memo.txt" "leak" ⟨[], []⟩).1.store
          "leak").map NewsItem.status = some "completed"
      ∧ (processFile (fun s => s) oSens 0 "memo.txt" "leak" ⟨[], []⟩).1.deliveries.map
          Delivery.dirSlug = ["all_employees"] :=
  ⟨rfl, rfl, rfl, rfl⟩

/-- C9 (amended): the Finalizer's safety override is delegated to the
generation service through its prompt; the code applies no check of its
own — whatever record the service returns is committed as `final_decision`
verbatim (up to key sanitization), whatever the sensitivity verdict was.
The exclusion of the unrestricted recipient therefore holds exactly when
the service's response already satisfies it. -/
theorem final_decision_committed_verbatim (hash : String → String) (o : Oracle)
    (now : Nat) (filename content : String) (st : SysState) (v : PyVal)
    (hok : o.finalize = .parsed v) (hfin : o.finUpdate = Option.none) :
    (getDoc (processFile hash o now filename content st).1.store (hash content)).map
        NewsItem.final_decision = some (some (sanitizeMongoKeys v)) := by
  have hfr : finalizerResult o = v := by
    simp only [finalizerResult, hok]
  simp only [processFile, hfin, getDoc_completedDoc]
  cases hexn : (distribute o.write
      (setCompleted (sanitizeMongoKeys (finalizerResult o))
        (pipelineDoc hash o now filename content)) content .feed).exn with
  | none =>
    simp only [hexn]
    rw [getDoc_completedDoc]
    simp only [Option.map]
    rw [hfr]
    rfl
  | some msg =>
    simp only [hexn]
    rw [getDoc_updateDoc_self, getDoc_completedDoc]
    simp only [Option.map]
    rw [hfr]
    rfl

/-- Witness for C9 (amended): the committed decision equals the service's
sanitized response at a concrete run. -/
theorem final_decision_committed_verbatim_witness :
    (getDoc (processFile (fun s => s) oSens 0 "memo.txt" "leak" ⟨[], []⟩).1.store
        ((fun s => s) "leak")).map NewsItem.final_decision
      = some (some (sanitizeMongoKeys (.dict [("is_safe", .bool true),
          ("final_recipients", .list [.str "All Employees"])]))) :=
  final_decision_committed_verbatim (fun s => s) oSens 0 "memo.txt" "leak"
    ⟨[], []⟩ _ rfl rfl

/-- C7: distribution is complete fan-out with late source removal — for a
non-empty recipient list, when every write succeeds each recipient resolves
to exactly one delivery location (`slugify(recipient)`) receiving a copy of
the artifact bytes and a metadata record carrying the original name, the
id and the full `final_decision`, and only then is the source removed; a
failure partway through the fan-out raises and leaves the source artifact
where it was. -/
theorem distribute_fanout_complete (w wf : Nat → Bool) (item : NewsItem)
    (content : String) (src : ArtifactLoc) (kvs : List (String × PyVal))
    (rs : List String)
    (hfd : item.final_decision = some (.dict kvs))
    (hrec : getKey kvs "final_recipients" = some (.list (rs.map PyVal.str)))
    (hne : rs ≠ []) :
    ((∀ j, j < rs.length → w j = true) →
      distribute w item content src
        = { deliveries := rs.map (fun r =>
              mkDelivery r item.filename content (mkMeta item (.dict kvs))),
            sourceLoc := .removed, exn := Option.none })
      ∧ ((∃ j, j < rs.length ∧ wf j = false) →
        (distribute wf item content src).sourceLoc = src
          ∧ (distribute wf item content src).exn ≠ Option.none) :=
  ⟨fun hw => distribute_success w item content src kvs rs hfd hrec hne hw,
   fun hj => distribute_partial_failure wf item content src kvs rs hfd hrec hj⟩

/-- A completed document whose decision names the recipients Legal and HR,
used to instantiate the fan-out claim. -/
def itemFan : NewsItem :=
  { id := "h1", filename := "breaking_news.txt", content := "URGENT: outage",
    status := "completed",
    agents_results := [],
    final_decision := some (.dict [("final_recipients",
      .list [.str "Legal", .str "HR"])]),
    errorMsg := Option.none, created_at := 0 }

/-- Witness for C7: with recipients Legal and HR, both resolved locations
receive a copy and the metadata and the source is removed; with a failing
first write, the source stays in place and an exception is raised. -/
theorem distribute_fanout_complete_witness :
    distribute (fun _ => true) itemFan "URGENT: outage" ArtifactLoc.feed
      = { deliveries := ["Legal", "HR"].map (fun r =>
            mkDelivery r itemFan.filename "URGENT: outage"
              (mkMeta itemFan (.dict [("final_recipients",
                .list [.str "Legal", .str "HR"])]))),
          sourceLoc := .removed, exn := Option.none }
      ∧ ((distribute (fun _ => false) itemFan "URGENT: outage"
            ArtifactLoc.feed).sourceLoc = ArtifactLoc.feed
        ∧ (distribute (fun _ => false) itemFan "URGENT: outage"
            ArtifactLoc.feed).exn ≠ Option.none) := by
  have h := distribute_fanout_complete (fun _ => true) (fun _ => false) itemFan
    "URGENT: outage" ArtifactLoc.feed
    [("final_recipients", .list [.str "Legal", .str "HR"])] ["Legal", "HR"]
    rfl rfl (by decide)
  exact ⟨h.1 (fun j _ => rfl), h.2 ⟨0, by decide, rfl⟩⟩

/-- Modelled at the interface boundary of the external persistence driver:
the per-attempt outcomes the driver would return for successive attempts of
one operation.  A call takes the first outcome; the source code contains no
retry construct, so later entries are never consumed. -/
def driverCall (responses : List (Except String Unit)) : Except String Unit :=
  match responses with
  | [] => .error "connection closed"
  | r :: _ => r

/-- `Database.save_news_item` with its driver call made explicit: a single
`replace_one` attempt whose outcome — success or exception — is returned
to the caller unchanged (the method has no handler and no retry). -/
def saveNewsItemAttempt (responses : List (Except String Unit)) : Except String Unit :=
  driverCall responses

/-- `BaseAgent.process` (commit step) with its driver call made explicit:
sanitize the stage result, issue the single `update_one` attempt, and
either return the committed record or propagate the store exception. -/
def processAttempt (responses : List (Except String Unit))
    (outcome : LlmOutcome) : Except String PyVal :=
  match driverCall responses with
  | .ok _ => .ok (sanitizeMongoKeys (llmResponse outcome))
  | .error e => .error e

/-- C8: a failing persistence operation is surfaced to the caller as the
store error itself, and each operation consumes exactly the first driver
attempt — its result is independent of any further attempt outcomes, so a
failing operation is attempted once (hence at most twice) and no retry
loop exists in the core. -/
theorem store_failure_single_attempt (responses : List (Except String Unit))
    (outcome : LlmOutcome) (e : String) :
    (driverCall responses = .error e → processAttempt responses outcome = .error e)
      ∧ (driverCall responses = .error e → saveNewsItemAttempt responses = .error e)
      ∧ (∀ r rest, processAttempt (r :: rest) outcome = processAttempt [r] outcome)
      ∧ (∀ r rest, saveNewsItemAttempt (r :: rest) = saveNewsItemAttempt [r])
      ∧ (driverCall responses = .ok () →
        processAttempt responses outcome = .ok (sanitizeMongoKeys (llmResponse outcome))) := by
  refine ⟨fun h => ?_, fun h => h, fun r rest => rfl, fun r rest => rfl, fun h => ?_⟩
  · simp [processAttempt, h]
  · simp [processAttempt, h]

/-- Witness for C8: a concrete failing driver attempt propagates, and a
trailing successful attempt is never consumed. -/
theorem store_failure_single_attempt_witness :
    (driverCall [.error "StoreError", .ok ()] = .error "StoreError" →
      processAttempt [.error "StoreError", .ok ()] (.parsed (.dict []))
        = .error "StoreError")
      ∧ (driverCall [.error "StoreError", .ok ()] = .error "StoreError" →
        saveNewsItemAttempt [.error "StoreError", .ok ()] = .error "StoreError")
      ∧ (∀ r rest, processAttempt (r :: rest) (.parsed (.dict []))
          = processAttempt [r] (.parsed (.dict [])))
      ∧ (∀ r rest, saveNewsItemAttempt (r :: rest) = saveNewsItemAttempt [r])
      ∧ (driverCall [.error "StoreError", .ok ()] = .ok () →
        processAttempt [.error "StoreError", .ok ()] (.parsed (.dict []))
          = .ok (sanitizeMongoKeys (llmResponse (.parsed (.dict []))))) :=
  store_failure_single_attempt [.error "StoreError", .ok ()] (.parsed (.dict [])) "StoreError"
